import Mathlib

/-!
Verification development for the bevy-tnua floating character controller.

The crate root (`src/src/lib.rs`) only re-exports the modules
`basis_action_traits`, `builtins` and `controller`, whose sources are not
part of this tree.  The definitions below therefore model those missing
modules from the specification (sections 4.2 - 4.4, 6 and 7 of the design
document), keeping the names the crate root re-exports
(`TnuaActionLifecycleStatus`, `TnuaActionInitiationDirective`,
`TnuaBuiltinWalk`, `TnuaBuiltinJump`, ...).  All arithmetic is carried out
over exact rationals in place of the floating point numbers of the source.
-/

/-- Modelled from the spec: the reject/accept directive returned by an
action's `initiate` hook (`TnuaActionInitiationDirective`, re-exported by
`src/src/lib.rs` from the missing `basis_action_traits` module). -/
inductive TnuaActionInitiationDirective where
  | Reject
  | Accept
deriving DecidableEq, Repr

/-- Modelled from the spec: the lifecycle state machine of a tracked action
(`TnuaActionLifecycleStatus`, re-exported by `src/src/lib.rs` from the
missing `basis_action_traits` module).  Per spec section 4.2 the states are
`Initiated -> Running -> CancelledByUser / Concluded / SupersededByNewer`;
the short "still fed from momentum" decay window an unfed action passes
through before `CancelledByUser` is the `Decaying` state, carrying the
number of further unfed ticks it may survive.  `Initiated` records the
directive its `initiate` hook returned, so that a rejected action can be
kept from ever reaching `Running`. -/
inductive TnuaActionLifecycleStatus where
  | Initiated (directive : TnuaActionInitiationDirective)
  | Running
  | Decaying (remaining : Nat)
  | CancelledByUser
  | Concluded
  | SupersededByNewer
deriving DecidableEq, Repr

/-- Modelled from the spec: terminal lifecycle states (spec section 4.2 marks
`CancelledByUser`, `Concluded` and `SupersededByNewer` terminal). -/
def isTerminal : TnuaActionLifecycleStatus → Bool
  | .CancelledByUser => true
  | .Concluded => true
  | .SupersededByNewer => true
  | _ => false

/-- Modelled from the spec: the state entered by an action that was fed last
tick and is unfed this tick.  A grace window of `grace` ticks means the
action survives `grace` unfed ticks in the `Decaying` state and becomes
`CancelledByUser` on the next one; a zero window cancels immediately. -/
def decayFrom (grace : Nat) : TnuaActionLifecycleStatus :=
  match grace with
  | 0 => .CancelledByUser
  | g + 1 => .Decaying g

/-- Modelled from the spec: one controller tick of the feed-or-decay
reconciliation for a single action slot (spec section 4.2; the controller
module is missing from `src/`).  `slot` is the tracked state from last tick
(`none` when the action is not tracked), `fed` says whether the caller
declared the action this tick, and `directive` is what the `initiate` hook
returns in case it is consulted.  First-time declarations enter
`Initiated`; an accepted action that keeps being fed runs; an unfed action
decays for the grace window and is then cancelled; re-feeding a decaying
action restores `Running` (the initiate hook is only consulted on
first-time declarations); a rejected action never reaches `Running` and is
dropped once unfed; terminal states persist. -/
def actionFeedTick (grace : Nat) (slot : Option TnuaActionLifecycleStatus)
    (fed : Bool) (directive : TnuaActionInitiationDirective) :
    Option TnuaActionLifecycleStatus :=
  match slot with
  | none => if fed then some (.Initiated directive) else none
  | some s =>
    match s, fed with
    | .Initiated .Accept, true => some .Running
    | .Initiated .Reject, true => some (.Initiated .Reject)
    | .Initiated .Accept, false => some (decayFrom grace)
    | .Initiated .Reject, false => none
    | .Running, true => some .Running
    | .Running, false => some (decayFrom grace)
    | .Decaying _, true => some .Running
    | .Decaying (r + 1), false => some (.Decaying r)
    | .Decaying 0, false => some .CancelledByUser
    | .CancelledByUser, _ => some .CancelledByUser
    | .Concluded, _ => some .Concluded
    | .SupersededByNewer, _ => some .SupersededByNewer

/-- Modelled from the spec: the `initiate` hook runs exactly when an action
that is not currently tracked is declared (spec section 4.2). -/
def initiateHookRuns (slot : Option TnuaActionLifecycleStatus) (fed : Bool) :
    Bool :=
  slot.isNone && fed

/-- Iterate `actionFeedTick` over a list of per-tick inputs
`(fed, directive)`. -/
def feedRun (grace : Nat) (slot : Option TnuaActionLifecycleStatus)
    (inputs : List (Bool × TnuaActionInitiationDirective)) :
    Option TnuaActionLifecycleStatus :=
  inputs.foldl (fun s i => actionFeedTick grace s i.1 i.2) slot

-- Helper lemmas about the lifecycle machine.

lemma feedRun_cons (grace : Nat) (slot : Option TnuaActionLifecycleStatus)
    (i : Bool × TnuaActionInitiationDirective)
    (l : List (Bool × TnuaActionInitiationDirective)) :
    feedRun grace slot (i :: l) =
      feedRun grace (actionFeedTick grace slot i.1 i.2) l := rfl

lemma feedRun_running_fed (grace : Nat)
    (d : TnuaActionInitiationDirective) :
    ∀ m : Nat,
      feedRun grace (some .Running) (List.replicate m (true, d)) =
        some .Running := by
  intro m
  induction m with
  | zero => rfl
  | succ m ih =>
    rw [List.replicate_succ, feedRun_cons]
    exact ih

lemma feedRun_all_accept (grace N : Nat) (hN : 1 ≤ N) :
    feedRun grace none
        (List.replicate N (true, TnuaActionInitiationDirective.Accept)) =
      some (.Initiated .Accept) ∨
    feedRun grace none
        (List.replicate N (true, TnuaActionInitiationDirective.Accept)) =
      some .Running := by
  obtain ⟨M, rfl⟩ : ∃ M, N = M + 1 := ⟨N - 1, by omega⟩
  rw [List.replicate_succ, feedRun_cons]
  cases M with
  | zero => exact Or.inl rfl
  | succ M =>
    refine Or.inr ?_
    rw [List.replicate_succ, feedRun_cons]
    exact feedRun_running_fed grace _ M

lemma feedRun_decaying_unfed (grace : Nat)
    (d : TnuaActionInitiationDirective) :
    ∀ (m r : Nat), m ≤ r →
      feedRun grace (some (.Decaying r)) (List.replicate m (false, d)) =
        some (.Decaying (r - m)) := by
  intro m
  induction m with
  | zero => intro r _; rfl
  | succ m ih =>
    intro r hr
    obtain ⟨r', rfl⟩ : ∃ r', r = r' + 1 := ⟨r - 1, by omega⟩
    rw [List.replicate_succ, feedRun_cons]
    have := ih r' (by omega)
    simpa [actionFeedTick, Nat.succ_sub_succ] using this

lemma feedRun_decay_from_active (grace j : Nat)
    (d : TnuaActionInitiationDirective)
    (s : Option TnuaActionLifecycleStatus)
    (hs : s = some (.Initiated .Accept) ∨ s = some .Running)
    (hj1 : 1 ≤ j) (hjg : j ≤ grace) :
    feedRun grace s (List.replicate j (false, d)) =
      some (.Decaying (grace - j)) := by
  obtain ⟨j', rfl⟩ : ∃ j', j = j' + 1 := ⟨j - 1, by omega⟩
  obtain ⟨g', rfl⟩ : ∃ g', grace = g' + 1 := ⟨grace - 1, by omega⟩
  rw [List.replicate_succ, feedRun_cons]
  have hstep : actionFeedTick (g' + 1) s false d = some (.Decaying g') := by
    rcases hs with rfl | rfl <;> rfl
  rw [hstep]
  have harith : g' + 1 - (j' + 1) = g' - j' := by omega
  rw [harith]
  exact feedRun_decaying_unfed (g' + 1) d j' g' (by omega)

lemma actionFeedTick_decaying_fed (grace r : Nat)
    (d : TnuaActionInitiationDirective) :
    actionFeedTick grace (some (.Decaying r)) true d = some .Running := by
  cases r <;> rfl

lemma feedRun_rejected_fed (grace : Nat)
    (d : TnuaActionInitiationDirective) :
    ∀ m : Nat,
      feedRun grace (some (.Initiated .Reject)) (List.replicate m (true, d)) =
        some (.Initiated .Reject) := by
  intro m
  induction m with
  | zero => rfl
  | succ m ih =>
    rw [List.replicate_succ, feedRun_cons]
    exact ih

/-- C1: an action fed on ticks `1..N` and then left unfed stays in the
non-terminal `Decaying` state for each of the first `grace` unfed ticks,
reaches `CancelledByUser` once the grace window is exhausted, and
re-feeding it anywhere inside the window restores `Running` without the
initiate hook being consulted again. -/
theorem tnua_c1_action_absence_decay (grace N j : Nat)
    (d d' : TnuaActionInitiationDirective)
    (sN sGap : Option TnuaActionLifecycleStatus)
    (hN : 1 ≤ N) (hj1 : 1 ≤ j) (hjg : j ≤ grace)
    (hFed : feedRun grace none
        (List.replicate N (true, TnuaActionInitiationDirective.Accept)) = sN)
    (hGap : feedRun grace sN (List.replicate j (false, d)) = sGap) :
    sGap = some (.Decaying (grace - j)) ∧
    isTerminal (.Decaying (grace - j)) = false ∧
    feedRun grace sN (List.replicate (grace + 1) (false, d)) =
      some .CancelledByUser ∧
    actionFeedTick grace sGap true d' = some .Running ∧
    initiateHookRuns sGap true = false := by
  subst hFed
  have hstate := feedRun_all_accept grace N hN
  have hdecay := feedRun_decay_from_active grace j d _ hstate hj1 hjg
  rw [hdecay] at hGap
  subst hGap
  refine ⟨rfl, rfl, ?_, actionFeedTick_decaying_fed grace (grace - j) d', rfl⟩
  have : List.replicate (grace + 1) ((false : Bool), d) =
      List.replicate grace (false, d) ++ [(false, d)] := by
    rw [← List.replicate_succ']
  rw [this]
  unfold feedRun
  rw [List.foldl_append]
  have hgrace : feedRun grace
      (feedRun grace none
        (List.replicate N (true, TnuaActionInitiationDirective.Accept)))
      (List.replicate grace (false, d)) = some (.Decaying 0) := by
    have := feedRun_decay_from_active grace grace d _ hstate (by omega)
      (le_refl grace)
    simpa [Nat.sub_self] using this
  unfold feedRun at hgrace
  rw [hgrace]
  rfl

/-- C1 witness: grace window 2, fed for 3 ticks, one unfed tick. -/
theorem tnua_c1_action_absence_decay_witness :
    some (.Decaying 1) =
      some (TnuaActionLifecycleStatus.Decaying (2 - 1)) ∧
    isTerminal (.Decaying (2 - 1)) = false ∧
    feedRun 2 (some .Running)
        (List.replicate (2 + 1) (false, TnuaActionInitiationDirective.Accept)) =
      some .CancelledByUser ∧
    actionFeedTick 2 (some (.Decaying 1)) true
        TnuaActionInitiationDirective.Accept = some .Running ∧
    initiateHookRuns (some (.Decaying 1)) true = false :=
  tnua_c1_action_absence_decay 2 3 1
    TnuaActionInitiationDirective.Accept TnuaActionInitiationDirective.Accept
    (some .Running) (some (.Decaying 1))
    (by decide) (by decide) (by decide) (by decide) (by decide)

/-- C7: a first-time declared action enters `Initiated`; when its initiate
hook rejects it, continued feeding keeps it in `Initiated Reject` forever,
so it never reaches `Running` during that declaration. -/
theorem tnua_c7_rejected_never_runs (grace k : Nat)
    (d d' : TnuaActionInitiationDirective) :
    actionFeedTick grace none true d = some (.Initiated d) ∧
    feedRun grace (some (.Initiated .Reject))
        (List.replicate k (true, d')) = some (.Initiated .Reject) ∧
    feedRun grace none
        ((true, TnuaActionInitiationDirective.Reject) ::
          List.replicate k (true, d')) ≠ some .Running := by
  refine ⟨rfl, feedRun_rejected_fed grace d' k, ?_⟩
  rw [feedRun_cons]
  have hfirst : actionFeedTick grace none true
      TnuaActionInitiationDirective.Reject =
        some (.Initiated .Reject) := rfl
  rw [hfirst, feedRun_rejected_fed grace d' k]
  simp

/-- Modelled from the spec: configuration of the built-in jump action
(`TnuaBuiltinJump`, re-exported by `src/src/lib.rs` from the missing
`builtins` module; its recognized parameters are listed in spec section 6:
`height`, `max_hold_duration`, `coyote_ticks`, `buffer_ticks`,
`shorten_factor`). -/
structure TnuaBuiltinJump where
  height : ℚ
  max_hold_duration : ℚ
  coyote_ticks : Nat
  buffer_ticks : Nat
  shorten_factor : ℚ
deriving DecidableEq, Repr

/-- Modelled from the spec: initiation-side phases of the built-in jump
state machine (spec section 4.4).  `Buffered` is the queued jump waiting
for landing, carrying the remaining ticks of the buffer window; the apex
and descent kinematics after `Ascending` are modelled separately by
`apexHeight` below, since control then returns to the walk basis. -/
inductive JumpPhase where
  | NoJump
  | Buffered (remaining : Nat)
  | Ascending
deriving DecidableEq, Repr

/-- Runtime state of the jump initiation machine: the current phase and the
number of consecutive airborne ticks (0 while grounded), which implements
the coyote-time window. -/
structure JumpInitState where
  phase : JumpPhase
  airborneTicks : Nat
deriving DecidableEq, Repr

/-- Modelled from the spec: one tick of the built-in jump initiation logic
(spec section 4.4; the `builtins` module is missing from `src/`).  A fed
jump fires immediately when grounded or within `coyote_ticks` of leaving
the ground, and is otherwise queued in `Buffered` for `buffer_ticks`
ticks; a queued jump fires on the tick the character lands; feeding while
queued refreshes the buffer window, and an unfed queued jump expires when
the window runs out. -/
def jumpInitTick (cfg : TnuaBuiltinJump) (s : JumpInitState)
    (grounded fed : Bool) : JumpInitState :=
  let air := if grounded then 0 else s.airborneTicks + 1
  let phase :=
    match s.phase with
    | .NoJump =>
      if fed then
        if grounded then .Ascending
        else if air ≤ cfg.coyote_ticks then .Ascending
        else .Buffered cfg.buffer_ticks
      else .NoJump
    | .Buffered r =>
      if grounded then .Ascending
      else if fed then .Buffered cfg.buffer_ticks
      else
        match r with
        | 0 => .NoJump
        | r' + 1 => .Buffered r'
    | .Ascending => .Ascending
  { phase := phase, airborneTicks := air }

/-- Iterate `jumpInitTick` over a list of per-tick `(grounded, fed)`
inputs. -/
def jumpInitRun (cfg : TnuaBuiltinJump) (s : JumpInitState)
    (inputs : List (Bool × Bool)) : JumpInitState :=
  inputs.foldl (fun st i => jumpInitTick cfg st i.1 i.2) s

lemma jumpInitRun_cons (cfg : TnuaBuiltinJump) (s : JumpInitState)
    (i : Bool × Bool) (l : List (Bool × Bool)) :
    jumpInitRun cfg s (i :: l) =
      jumpInitRun cfg (jumpInitTick cfg s i.1 i.2) l := rfl

lemma jumpInitRun_noJump_airborne_unfed (cfg : TnuaBuiltinJump) :
    ∀ (m a0 : Nat),
      jumpInitRun cfg ⟨.NoJump, a0⟩ (List.replicate m (false, false)) =
        ⟨.NoJump, a0 + m⟩ := by
  intro m
  induction m with
  | zero => intro a0; rfl
  | succ m ih =>
    intro a0
    rw [List.replicate_succ, jumpInitRun_cons]
    have hstep : jumpInitTick cfg ⟨.NoJump, a0⟩ false false =
        ⟨.NoJump, a0 + 1⟩ := rfl
    rw [hstep, ih (a0 + 1)]
    congr 1
    omega

lemma jumpInitRun_buffered_airborne (cfg : TnuaBuiltinJump) :
    ∀ (bs : List Bool) (r a : Nat), bs.length ≤ r → r ≤ cfg.buffer_ticks →
      ∃ r' a', r' ≤ cfg.buffer_ticks ∧
        jumpInitRun cfg ⟨.Buffered r, a⟩ (bs.map fun b => (false, b)) =
          ⟨.Buffered r', a'⟩ := by
  intro bs
  induction bs with
  | nil => intro r a _ hr2; exact ⟨r, a, hr2, rfl⟩
  | cons b bs ih =>
    intro r a hr1 hr2
    rw [List.map_cons, jumpInitRun_cons]
    cases b with
    | true =>
      have hstep : jumpInitTick cfg ⟨.Buffered r, a⟩ false true =
          ⟨.Buffered cfg.buffer_ticks, a + 1⟩ := rfl
      rw [hstep]
      exact ih cfg.buffer_ticks (a + 1)
        (by simpa using Nat.le_trans (by simpa using Nat.le_of_succ_le hr1) hr2)
        (le_refl _)
    | false =>
      obtain ⟨r'', rfl⟩ : ∃ r'', r = r'' + 1 :=
        ⟨r - 1, by simp at hr1; omega⟩
      have hstep : jumpInitTick cfg ⟨.Buffered (r'' + 1), a⟩ false false =
          ⟨.Buffered r'', a + 1⟩ := rfl
      rw [hstep]
      exact ih r'' (a + 1) (by simp at hr1; omega) (by omega)

lemma jumpInitTick_buffered_landing (cfg : TnuaBuiltinJump) (r a : Nat)
    (fed : Bool) :
    (jumpInitTick cfg ⟨.Buffered r, a⟩ true fed).phase = .Ascending := rfl

/-- C5: a jump declared on a tick on which the character is airborne past
the coyote window is queued, and if the character lands `k ≤ buffer_ticks`
ticks later (with arbitrary feeding in between) the queued jump fires on
the landing tick instead of being dropped. -/
theorem tnua_c5_jump_buffering (cfg : TnuaBuiltinJump) (a k : Nat)
    (bs : List Bool) (fedLand : Bool)
    (hcoyote : cfg.coyote_ticks ≤ a)
    (hk : bs.length + 1 = k) (hbuf : k ≤ cfg.buffer_ticks) :
    (jumpInitRun cfg ⟨.NoJump, a⟩
        ((false, true) :: ((bs.map fun b => (false, b)) ++ [(true, fedLand)]))).phase =
      .Ascending := by
  rw [jumpInitRun_cons]
  have hstep : jumpInitTick cfg ⟨.NoJump, a⟩ false true =
      ⟨.Buffered cfg.buffer_ticks, a + 1⟩ := by
    have hnc : ¬(a + 1 ≤ cfg.coyote_ticks) := by omega
    simp [jumpInitTick, hnc]
  rw [hstep]
  unfold jumpInitRun
  rw [List.foldl_append]
  obtain ⟨r', a', _, hrun⟩ := jumpInitRun_buffered_airborne cfg bs
    cfg.buffer_ticks (a + 1) (by omega) (le_refl _)
  unfold jumpInitRun at hrun
  rw [hrun]
  exact jumpInitTick_buffered_landing cfg r' a' fedLand

/-- C5 witness: coyote window 1, buffer window 3, declared while 2 ticks
airborne, landing 2 ticks after the declaration. -/
theorem tnua_c5_jump_buffering_witness :
    (jumpInitRun ⟨4, 1, 1, 3, 1 / 2⟩ ⟨.NoJump, 2⟩
        ((false, true) ::
          (([false].map fun b => (false, b)) ++ [(true, false)]))).phase =
      .Ascending :=
  tnua_c5_jump_buffering ⟨4, 1, 1, 3, 1 / 2⟩ 2 2 [false] false
    (by decide) (by decide) (by decide)

/-- C6: leaving the ground and declaring a jump `j ≤ coyote_ticks` ticks
later (with no jump in between) still fires the jump at once, with the
same resulting phase as a declaration made while grounded. -/
theorem tnua_c6_coyote_time (cfg : TnuaBuiltinJump) (j : Nat)
    (hj1 : 1 ≤ j) (hj : j ≤ cfg.coyote_ticks) :
    (jumpInitRun cfg ⟨.NoJump, 0⟩
        (List.replicate (j - 1) (false, false) ++ [(false, true)])).phase =
      .Ascending ∧
    (jumpInitTick cfg ⟨.NoJump, 0⟩ true true).phase = .Ascending ∧
    (jumpInitRun cfg ⟨.NoJump, 0⟩
        (List.replicate (j - 1) (false, false) ++ [(false, true)])).phase =
      (jumpInitTick cfg ⟨.NoJump, 0⟩ true true).phase := by
  have hgrounded : (jumpInitTick cfg ⟨.NoJump, 0⟩ true true).phase =
      .Ascending := rfl
  have hair : jumpInitRun cfg ⟨.NoJump, 0⟩
      (List.replicate (j - 1) (false, false)) = ⟨.NoJump, j - 1⟩ := by
    simpa using jumpInitRun_noJump_airborne_unfed cfg (j - 1) 0
  have hmain : (jumpInitRun cfg ⟨.NoJump, 0⟩
      (List.replicate (j - 1) (false, false) ++ [(false, true)])).phase =
      .Ascending := by
    unfold jumpInitRun
    rw [List.foldl_append]
    unfold jumpInitRun at hair
    rw [hair]
    have hcoy : j - 1 + 1 ≤ cfg.coyote_ticks := by omega
    simp [jumpInitTick, hcoy]
  exact ⟨hmain, hgrounded, by rw [hmain, hgrounded]⟩

/-- C6 witness: coyote window 2, jump declared on the second airborne
tick. -/
theorem tnua_c6_coyote_time_witness :
    (jumpInitRun ⟨4, 1, 2, 3, 1 / 2⟩ ⟨.NoJump, 0⟩
        (List.replicate (2 - 1) (false, false) ++ [(false, true)])).phase =
      .Ascending ∧
    (jumpInitTick ⟨4, 1, 2, 3, 1 / 2⟩ ⟨.NoJump, 0⟩ true true).phase =
      .Ascending ∧
    (jumpInitRun ⟨4, 1, 2, 3, 1 / 2⟩ ⟨.NoJump, 0⟩
        (List.replicate (2 - 1) (false, false) ++ [(false, true)])).phase =
      (jumpInitTick ⟨4, 1, 2, 3, 1 / 2⟩ ⟨.NoJump, 0⟩ true true).phase :=
  tnua_c6_coyote_time ⟨4, 1, 2, 3, 1 / 2⟩ 2 (by decide) (by decide)

/-- Modelled from the spec: the requested jump height is converted to an
initial upward velocity via the standard projectile relation
`v = sqrt(2 g h)` (spec section 4.4; the `builtins` module is missing from
`src/`).  Over exact rationals the square root is represented by its
defining property: `v` is the nonnegative number with `v ^ 2 = 2 g h`. -/
def isJumpInitialVelocity (g h v : ℚ) : Prop := 0 ≤ v ∧ v ^ 2 = 2 * g * h

/-- Modelled from the spec: apex height above the launch point of a body
launched upward at speed `v` under gravity magnitude `g` (standard
ballistics, `v ^ 2 / (2 g)`). -/
def apexHeight (g v : ℚ) : ℚ := v ^ 2 / (2 * g)

/-- Modelled from the spec: the upward velocity the jump ends up granting.
Holding the jump for the full `max_hold_duration` grants the full initial
velocity; early release truncates it by `shorten_factor` (spec section
4.4, variable jump height). -/
def heldJumpVelocity (cfg : TnuaBuiltinJump) (v : ℚ)
    (heldFullDuration : Bool) : ℚ :=
  if heldFullDuration then v else cfg.shorten_factor * v

/-- C2: if `v` is the initial velocity the jump derives from gravity `g`
and requested height `h`, then `v ^ 2 = 2 g h` (the exact-arithmetic form
of `v = sqrt(2 g h)`), and holding the jump for the full
`max_hold_duration` yields an apex exactly `h` above the launch point. -/
theorem tnua_c2_jump_height (cfg : TnuaBuiltinJump) (g h v : ℚ)
    (hg : 0 < g) (hv : isJumpInitialVelocity g h v) :
    v ^ 2 = 2 * g * h ∧
    apexHeight g (heldJumpVelocity cfg v true) = h := by
  obtain ⟨hv0, hv2⟩ := hv
  refine ⟨hv2, ?_⟩
  have hv' : heldJumpVelocity cfg v true = v := rfl
  rw [hv', apexHeight, hv2]
  have h2g : (2 * g) ≠ 0 := by positivity
  exact mul_div_cancel_left₀ h h2g

/-- C2 witness: gravity 2, height 4, initial velocity 4. -/
theorem tnua_c2_jump_height_witness :
    (4 : ℚ) ^ 2 = 2 * 2 * 4 ∧
    apexHeight 2 (heldJumpVelocity ⟨4, 1, 2, 3, 1 / 2⟩ 4 true) = 4 :=
  tnua_c2_jump_height ⟨4, 1, 2, 3, 1 / 2⟩ 2 4 4 (by norm_num)
    ⟨by norm_num, by norm_num⟩

/-- Clamp a value to the symmetric interval `[-lim, lim]`. -/
def clampAbs (x lim : ℚ) : ℚ := max (-lim) (min lim x)

/-- Signed error between the actual float height (the sensed ground
distance) and the desired `float_height`: negative when the body is too
low, positive when it is too high. -/
def heightError (float_height groundDistance : ℚ) : ℚ :=
  groundDistance - float_height

/-- Modelled from the spec: the spring term of the walk basis - a target
vertical velocity proportional to the signed height error, clamped to
avoid overshoot (spec section 4.3; the `builtins` module is missing from
`src/`). -/
def springTargetVelocity (strength float_height groundDistance lim : ℚ) : ℚ :=
  clampAbs (strength * (float_height - groundDistance)) lim

/-- Modelled from the spec: the vertical correction the walk basis outputs
each tick - the clamped spring term combined with a damping term using the
current vertical velocity (spec section 4.3, critically-damped spring). -/
def springCorrection (strength damping float_height groundDistance
    verticalVelocity lim : ℚ) : ℚ :=
  springTargetVelocity strength float_height groundDistance lim -
    damping * verticalVelocity

/-- C3 counterexample: with ground distance 1 below the float height 2 the
height error is negative, yet with an upward vertical velocity of 5 the
damped correction the basis outputs is negative as well - the same sign as
the error, not the opposite one. -/
theorem tnua_c3_counterexample :
    (1 : ℚ) < 2 ∧
    heightError 2 1 < 0 ∧
    springCorrection 1 1 2 1 5 10 < 0 := by
  refine ⟨by norm_num, ?_, ?_⟩
  · norm_num [heightError]
  · rw [springCorrection, springTargetVelocity, clampAbs]
    norm_num

/-- C3 (amended): when the ground is sensed strictly below `float_height`
the clamped spring term is strictly positive - opposite in sign to the
negative height error - and therefore so is the full output correction
whenever the current vertical velocity is zero (the damping term, which
uses the current vertical velocity, can otherwise dominate the output). -/
theorem tnua_c3_spring_restorative (strength damping float_height
    groundDistance lim : ℚ)
    (hk : 0 < strength) (hlim : 0 < lim)
    (hbelow : groundDistance < float_height) :
    heightError float_height groundDistance < 0 ∧
    0 < springTargetVelocity strength float_height groundDistance lim ∧
    0 < springCorrection strength damping float_height groundDistance 0 lim := by
  have herr : heightError float_height groundDistance < 0 :=
    sub_neg.mpr hbelow
  have hpos : 0 < strength * (float_height - groundDistance) :=
    mul_pos hk (sub_pos.mpr hbelow)
  have htarget : 0 < springTargetVelocity strength float_height
      groundDistance lim := by
    unfold springTargetVelocity clampAbs
    exact lt_max_of_lt_right (lt_min hlim hpos)
  refine ⟨herr, htarget, ?_⟩
  unfold springCorrection
  simpa using htarget

/-- C3 witness: strength 1, damping 3, float height 2, ground distance 1,
zero vertical velocity, clamp 10. -/
theorem tnua_c3_spring_restorative_witness :
    heightError 2 1 < 0 ∧
    0 < springTargetVelocity 1 2 1 10 ∧
    0 < springCorrection 1 3 2 1 0 10 :=
  tnua_c3_spring_restorative 1 3 2 1 10 (by norm_num) (by norm_num)
    (by norm_num)

/-- Modelled from the spec and the crate root: the built-in walk basis
configuration (`TnuaBuiltinWalk`, re-exported by `src/src/lib.rs` from the
missing `builtins` module; parameter list per spec section 6).  The crate
root usage example (`src/src/lib.rs` lines 80-93) sets the fields
directly, and the doc comment on `float_height` (lines 87-89) only states
that it must be larger than the height of the entity's center from the
bottom of its collider "or else the character will not float and Tnua will
not work properly": the field is plain data. -/
structure TnuaBuiltinWalk where
  desired_velocity : ℚ × ℚ × ℚ
  desired_forward : ℚ × ℚ × ℚ
  float_height : ℚ
deriving DecidableEq, Repr

/-- Building the walk basis configuration from the declared parameters:
the values are stored as given - the construction is total, with no
validation step and no error channel. -/
def mkBuiltinWalk (dv df : ℚ × ℚ × ℚ) (fh : ℚ) : TnuaBuiltinWalk :=
  ⟨dv, df, fh⟩

/-- C10 counterexample: a walk basis declared with the invalid
`float_height = -1` is constructed successfully, keeps the negative value
unchanged, and that value flows verbatim into the spring computation - no
validation error is surfaced and nothing is clamped. -/
theorem tnua_c10_counterexample :
    (mkBuiltinWalk (0, 0, 0) (0, 0, 0) (-1)).float_height = -1 ∧
    (mkBuiltinWalk (0, 0, 0) (0, 0, 0) (-1)).float_height < 0 ∧
    springTargetVelocity 1
      ((mkBuiltinWalk (0, 0, 0) (0, 0, 0) (-1)).float_height) 0 10 = -1 := by
  refine ⟨rfl, by norm_num [mkBuiltinWalk], ?_⟩
  simp [mkBuiltinWalk, springTargetVelocity, clampAbs]
  norm_num

/-- C10 (amended): the walk basis configuration performs no validation:
every declared `float_height` - valid or not - is stored unchanged (in
particular never clamped) and is consumed verbatim by the spring
computation; the documented consequence of an invalid value is silent
malfunction, not a surfaced error. -/
theorem tnua_c10_no_validation (dv df : ℚ × ℚ × ℚ)
    (fh strength gd lim : ℚ) :
    (mkBuiltinWalk dv df fh).float_height = fh ∧
    springTargetVelocity strength ((mkBuiltinWalk dv df fh).float_height)
        gd lim =
      springTargetVelocity strength fh gd lim :=
  ⟨rfl, rfl⟩

/-- Modelled from the spec: the internal runtime state a basis carries
across ticks ("e.g., spring velocity, airborne timer", spec section 2). -/
structure BasisInternalState where
  springVelocity : ℚ
  airborneTimerTicks : Nat
deriving DecidableEq, Repr

/-- The freshly initialized internal state of a basis. -/
def initialBasisState : BasisInternalState := ⟨0, 0⟩

/-- The single live basis slot of a character: the declared basis type (a
tag standing for the variant), its declared parameters, and the internal
runtime state. -/
structure BasisSlot (P : Type) where
  kind : Nat
  params : P
  internal : BasisInternalState

/-- Modelled from the spec: `set_basis` feeds the declared basis for this
tick (spec sections 3 and 6; the `controller` module is missing from
`src/`).  Declaring the same basis type keeps the previous internal state
and only updates the parameters; declaring a different basis type discards
the previous internal state and reinitializes it. -/
def set_basis {P : Type} (slot : Option (BasisSlot P)) (kind : Nat)
    (params : P) : BasisSlot P :=
  match slot with
  | none => ⟨kind, params, initialBasisState⟩
  | some s =>
    if s.kind = kind then ⟨kind, params, s.internal⟩
    else ⟨kind, params, initialBasisState⟩

/-- Iterate `set_basis` over the declared `(kind, params)` of consecutive
ticks. -/
def basisRun {P : Type} (s : BasisSlot P) (feeds : List (Nat × P)) :
    BasisSlot P :=
  feeds.foldl (fun acc f => set_basis (some acc) f.1 f.2) s

lemma basisRun_same_kind {P : Type} :
    ∀ (feeds : List (Nat × P)) (s : BasisSlot P),
      (∀ f ∈ feeds, f.1 = s.kind) →
      (basisRun s feeds).kind = s.kind ∧
      (basisRun s feeds).internal = s.internal := by
  intro feeds
  induction feeds with
  | nil => intro s _; exact ⟨rfl, rfl⟩
  | cons f fs ih =>
    intro s hs
    have hf : f.1 = s.kind := hs f (List.mem_cons_self f fs)
    have hstep : set_basis (some s) f.1 f.2 = ⟨s.kind, f.2, s.internal⟩ := by
      rw [hf]
      simp [set_basis]
    have hrest : ∀ g ∈ fs, g.1 = (⟨s.kind, f.2, s.internal⟩ : BasisSlot P).kind := by
      intro g hg
      exact hs g (List.mem_cons_of_mem f hg)
    have := ih ⟨s.kind, f.2, s.internal⟩ hrest
    unfold basisRun at this ⊢
    rw [List.foldl_cons, hstep]
    exact this

/-- C4: feeding `set_basis` the same basis variant again - in particular
with identical parameters, which makes the call the identity on the slot -
leaves the internal runtime state untouched over any run of same-kind
feeds, while declaring a different basis type discards the internal state
and reinitializes it. -/
theorem tnua_c4_basis_feed_idempotent {P : Type} (s : BasisSlot P)
    (k : Nat) (p : P) (feeds : List (Nat × P))
    (hdiff : k ≠ s.kind) (hsame : ∀ f ∈ feeds, f.1 = s.kind) :
    set_basis (some s) s.kind s.params = s ∧
    (basisRun s feeds).internal = s.internal ∧
    (set_basis (some s) k p).internal = initialBasisState ∧
    (set_basis (some s) k p).kind = k := by
  refine ⟨?_, (basisRun_same_kind feeds s hsame).2, ?_, ?_⟩
  · cases s with
    | mk k0 p0 i0 => simp [set_basis]
  · have hne : s.kind ≠ k := Ne.symm hdiff
    simp [set_basis, hne]
  · have hne : s.kind ≠ k := Ne.symm hdiff
    simp [set_basis, hne]

/-- C4 witness: a walk-tagged slot fed the same kind once, then a
different kind. -/
theorem tnua_c4_basis_feed_idempotent_witness :
    set_basis (some (⟨0, (1 : ℚ), ⟨2, 3⟩⟩ : BasisSlot ℚ)) 0 1 =
      (⟨0, (1 : ℚ), ⟨2, 3⟩⟩ : BasisSlot ℚ) ∧
    (basisRun (⟨0, (1 : ℚ), ⟨2, 3⟩⟩ : BasisSlot ℚ) [(0, 7)]).internal =
      (⟨2, 3⟩ : BasisInternalState) ∧
    (set_basis (some (⟨0, (1 : ℚ), ⟨2, 3⟩⟩ : BasisSlot ℚ)) 1 5).internal =
      initialBasisState ∧
    (set_basis (some (⟨0, (1 : ℚ), ⟨2, 3⟩⟩ : BasisSlot ℚ)) 1 5).kind = 1 :=
  tnua_c4_basis_feed_idempotent (⟨0, (1 : ℚ), ⟨2, 3⟩⟩ : BasisSlot ℚ) 1 5
    [(0, 7)] (by decide) (by simp)

/-- The hook the controller runs for an action on a tick: superseded
actions get the abrupt-stop hook in place of their normal update (spec
section 4.2). -/
inductive ActionHook where
  | NormalUpdate
  | AbruptStop
deriving DecidableEq, Repr

/-- Modelled from the spec: which hook runs for an action in a given
lifecycle state - `SupersededByNewer` runs the abrupt-stop hook instead of
its normal update. -/
def hookFor (s : TnuaActionLifecycleStatus) : ActionHook :=
  match s with
  | .SupersededByNewer => .AbruptStop
  | _ => .NormalUpdate

/-- An action tracked by the controller: its declared kind (a tag standing
for the variant), whether it belongs to the locomotion-overriding
category, and its lifecycle state. -/
structure TrackedAction where
  kind : Nat
  locomotionOverride : Bool
  state : TnuaActionLifecycleStatus
deriving DecidableEq, Repr

/-- An action that currently holds (or contends for) the
locomotion-override role: it is of that category and not in a terminal
state. -/
def isActiveOverride (t : TrackedAction) : Bool :=
  t.locomotionOverride && !(isTerminal t.state)

/-- Transition applied to a previously tracked action when a new
locomotion-overriding action is accepted: an active override moves to the
terminal `SupersededByNewer` state, everything else is untouched. -/
def supersedeOne (t : TrackedAction) : TrackedAction :=
  if isActiveOverride t then { t with state := .SupersededByNewer } else t

/-- Modelled from the spec: when the newly accepted action is of the
locomotion-overriding category, every previously tracked active override
is superseded (spec section 4.2 priority/ordering rule; the `controller`
module is missing from `src/`). -/
def supersedePrevious (l : List TrackedAction) (newIsOverride : Bool) :
    List TrackedAction :=
  if newIsOverride then l.map supersedeOne else l

/-- Modelled from the spec: accepting a newly declared action appends it
at the end of the stable queue (actions stay in first-declaration order),
after superseding the previous locomotion-override holder if the new
action is of that category. -/
def acceptAction (l : List TrackedAction) (a : TrackedAction) :
    List TrackedAction :=
  supersedePrevious l a.locomotionOverride ++ [a]

/-- Number of tracked actions currently holding the locomotion-override
role. -/
def activeOverrides (l : List TrackedAction) : Nat :=
  (l.filter isActiveOverride).length

lemma kind_supersedeOne (t : TrackedAction) :
    (supersedeOne t).kind = t.kind := by
  unfold supersedeOne
  split <;> rfl

lemma map_kind_supersedePrevious (l : List TrackedAction) (b : Bool) :
    (supersedePrevious l b).map TrackedAction.kind =
      l.map TrackedAction.kind := by
  cases b with
  | false => rfl
  | true =>
    unfold supersedePrevious
    rw [if_pos rfl, List.map_map]
    apply List.map_congr_left
    intro t _
    exact kind_supersedeOne t

lemma map_kind_acceptAction (l : List TrackedAction) (a : TrackedAction) :
    (acceptAction l a).map TrackedAction.kind =
      l.map TrackedAction.kind ++ [a.kind] := by
  unfold acceptAction
  rw [List.map_append, map_kind_supersedePrevious]
  rfl

lemma map_kind_foldl_acceptAction :
    ∀ (feeds init : List TrackedAction),
      ((feeds.foldl acceptAction init).map TrackedAction.kind) =
        init.map TrackedAction.kind ++ feeds.map TrackedAction.kind := by
  intro feeds
  induction feeds with
  | nil => intro init; simp
  | cons f fs ih =>
    intro init
    rw [List.foldl_cons, ih, map_kind_acceptAction]
    simp

lemma isActiveOverride_supersedeOne (t : TrackedAction) :
    isActiveOverride (supersedeOne t) = false := by
  unfold supersedeOne
  by_cases h : isActiveOverride t = true
  · rw [if_pos h]
    simp [isActiveOverride, isTerminal]
  · rw [if_neg h]
    simpa using h

lemma activeOverrides_map_supersedeOne :
    ∀ l : List TrackedAction, activeOverrides (l.map supersedeOne) = 0 := by
  intro l
  induction l with
  | nil => rfl
  | cons t l ih =>
    rw [List.map_cons]
    unfold activeOverrides at ih ⊢
    rw [List.filter_cons, isActiveOverride_supersedeOne t]
    simpa using ih

lemma activeOverrides_append (l l' : List TrackedAction) :
    activeOverrides (l ++ l') = activeOverrides l + activeOverrides l' := by
  unfold activeOverrides
  rw [List.filter_append, List.length_append]

lemma activeOverrides_singleton_le (a : TrackedAction) :
    activeOverrides [a] ≤ 1 := by
  unfold activeOverrides
  rw [List.filter_cons]
  split <;> simp

lemma activeOverrides_acceptAction (l : List TrackedAction)
    (a : TrackedAction) (hl : activeOverrides l ≤ 1) :
    activeOverrides (acceptAction l a) ≤ 1 := by
  unfold acceptAction
  rw [activeOverrides_append]
  cases hb : a.locomotionOverride with
  | true =>
    unfold supersedePrevious
    rw [if_pos rfl, activeOverrides_map_supersedeOne]
    simpa using activeOverrides_singleton_le a
  | false =>
    unfold supersedePrevious
    rw [if_neg (by simp)]
    have ha : activeOverrides [a] = 0 := by
      unfold activeOverrides
      rw [List.filter_cons]
      simp [isActiveOverride, hb]
    omega

lemma activeOverrides_foldl_acceptAction :
    ∀ (feeds init : List TrackedAction), activeOverrides init ≤ 1 →
      activeOverrides (feeds.foldl acceptAction init) ≤ 1 := by
  intro feeds
  induction feeds with
  | nil => intro init h; exact h
  | cons f fs ih =>
    intro init h
    rw [List.foldl_cons]
    exact ih (acceptAction init f) (activeOverrides_acceptAction init f h)

lemma zip_supersede_all :
    ∀ (l rest : List TrackedAction),
      ((l.zip (l.map supersedeOne ++ rest)).all fun pq =>
        !(isActiveOverride pq.1) ||
          (decide (pq.2.state = .SupersededByNewer) &&
            decide (hookFor pq.2.state = ActionHook.AbruptStop))) = true := by
  intro l
  induction l with
  | nil => intro rest; rfl
  | cons t l ih =>
    intro rest
    rw [List.map_cons, List.cons_append, List.zip_cons_cons, List.all_cons,
      ih rest, Bool.and_true]
    by_cases h : isActiveOverride t = true
    · rw [supersedeOne, if_pos h]
      simp [hookFor]
    · rw [Bool.not_eq_true] at h
      simp [h]

/-- C8: in every reachable controller state (a fold of `acceptAction` over
the declaration history) the tracked actions appear in first-declaration
order; accepting a new locomotion-overriding action keeps that order,
appends the new action at the tail, leaves at most one active
locomotion-override holder both before and after, and moves every
previously active override to the terminal `SupersededByNewer` state whose
hook is the abrupt-stop hook instead of the normal update. -/
theorem tnua_c8_ordering_and_supersede (feeds past : List TrackedAction)
    (a : TrackedAction)
    (hreach : past = feeds.foldl acceptAction [])
    (hov : a.locomotionOverride = true) :
    past.map TrackedAction.kind = feeds.map TrackedAction.kind ∧
    (acceptAction past a).map TrackedAction.kind =
      feeds.map TrackedAction.kind ++ [a.kind] ∧
    activeOverrides past ≤ 1 ∧
    activeOverrides (acceptAction past a) ≤ 1 ∧
    ((past.zip (acceptAction past a)).all fun pq =>
      !(isActiveOverride pq.1) ||
        (decide (pq.2.state = .SupersededByNewer) &&
          decide (hookFor pq.2.state = ActionHook.AbruptStop))) = true := by
  have hkinds : past.map TrackedAction.kind = feeds.map TrackedAction.kind := by
    rw [hreach]
    simpa using map_kind_foldl_acceptAction feeds []
  have hpast : activeOverrides past ≤ 1 := by
    rw [hreach]
    exact activeOverrides_foldl_acceptAction feeds [] (by simp [activeOverrides])
  refine ⟨hkinds, ?_, hpast, activeOverrides_acceptAction past a hpast, ?_⟩
  · rw [map_kind_acceptAction, hkinds]
  · have haccept : acceptAction past a = past.map supersedeOne ++ [a] := by
      unfold acceptAction supersedePrevious
      rw [hov, if_pos rfl]
    rw [haccept]
    exact zip_supersede_all past [a]

/-- C8 witness: one running override already tracked, a second override
accepted. -/
theorem tnua_c8_ordering_and_supersede_witness :
    ([⟨0, true, .Running⟩] : List TrackedAction).map TrackedAction.kind =
      ([⟨0, true, .Running⟩] : List TrackedAction).map TrackedAction.kind ∧
    (acceptAction [⟨0, true, .Running⟩] ⟨1, true, .Running⟩).map
        TrackedAction.kind =
      ([⟨0, true, .Running⟩] : List TrackedAction).map TrackedAction.kind ++
        [(⟨1, true, .Running⟩ : TrackedAction).kind] ∧
    activeOverrides [⟨0, true, .Running⟩] ≤ 1 ∧
    activeOverrides (acceptAction [⟨0, true, .Running⟩] ⟨1, true, .Running⟩) ≤ 1 ∧
    ((([⟨0, true, .Running⟩] : List TrackedAction).zip
        (acceptAction [⟨0, true, .Running⟩] ⟨1, true, .Running⟩)).all fun pq =>
      !(isActiveOverride pq.1) ||
        (decide (pq.2.state = .SupersededByNewer) &&
          decide (hookFor pq.2.state = ActionHook.AbruptStop))) = true :=
  tnua_c8_ordering_and_supersede [⟨0, true, .Running⟩] [⟨0, true, .Running⟩]
    ⟨1, true, .Running⟩ rfl rfl

/-- The observable side effects of one controller tick, in execution
order. -/
inductive TickEffect where
  | SenseGround
  | ReadVelocity
  | BasisUpdate
  | ActionUpdate (index : Nat)
  | ApplyMotion
  | ReturnStatus
deriving DecidableEq, Repr

/-- Modelled from the spec: the computation part of a tick - sensor
queries, the basis update, then the ordered action updates (spec section
2 data flow; the `controller` module is missing from `src/`). -/
def computationPhase (n : Nat) : List TickEffect :=
  [.SenseGround, .ReadVelocity, .BasisUpdate] ++
    (List.range n).map TickEffect.ActionUpdate

/-- Modelled from the spec: the full effect trace of one controller tick -
the computation phase followed by the single aggregated `apply_motion`
write and the advisory status return (spec sections 2 and 4.1). -/
def tickTrace (n : Nat) : List TickEffect :=
  computationPhase n ++ [.ApplyMotion, .ReturnStatus]

/-- C9: each tick performs exactly one `apply_motion` write, no motion
write occurs anywhere in the computation phase, and the single write
happens strictly after the whole computation phase (basis update and all
action updates), just before the advisory status is returned. -/
theorem tnua_c9_single_motion_write (n : Nat) :
    (tickTrace n).count TickEffect.ApplyMotion = 1 ∧
    TickEffect.ApplyMotion ∉ computationPhase n ∧
    tickTrace n =
      computationPhase n ++ [TickEffect.ApplyMotion, TickEffect.ReturnStatus] := by
  have hnot : TickEffect.ApplyMotion ∉ computationPhase n := by
    simp [computationPhase]
  refine ⟨?_, hnot, rfl⟩
  unfold tickTrace
  rw [List.count_append, List.count_eq_zero.mpr hnot]
  rfl
